import Mathlib

/-!
Verification development for the quiz-app repository.

Strings from the TypeScript source are modelled as `List Char`.  JavaScript
`String.prototype.trim`, `split`, `startsWith`, `substring` and array
`forEach`/`filter`/`find` are embedded as executable Lean functions below,
each one annotated with the source location it was translated from.
-/

/-- ASCII whitespace recognised by the model of JavaScript `trim()`
(the source texts only ever contain these whitespace characters). -/
def isSpaceChar (c : Char) : Bool :=
  c = ' ' || c = '\n' || c = '\t' || c = '\r'

/-- Model of JavaScript `s.trim()`: strip whitespace from both ends. -/
def trimL (s : List Char) : List Char :=
  ((s.dropWhile isSpaceChar).reverse.dropWhile isSpaceChar).reverse

/-- Model of JavaScript `s.split(sep)` for a single-character separator,
keeping empty segments (as JS does). -/
def splitOnChar (sep : Char) : List Char → List (List Char)
  | [] => [[]]
  | c :: cs =>
    if c = sep then [] :: splitOnChar sep cs
    else
      match splitOnChar sep cs with
      | [] => [[c]]
      | t :: ts => (c :: t) :: ts

/-- Model of JavaScript `p.isPrefixOf`-style `startsWith`. -/
def startsWithL (p s : List Char) : Bool :=
  p.isPrefixOf s

/-- Recognise the regex `Q\d+:` at the head of the character list
(src/components/old.App.tsx.2 line 86, `quizText.split(/Q\d+:/)`);
returns the remaining characters after the match. -/
def matchQHeader (s : List Char) : Option (List Char) :=
  match s with
  | [] => none
  | c :: rest =>
    if c = 'Q' then
      let ds := rest.takeWhile Char.isDigit
      let tl := rest.dropWhile Char.isDigit
      if ds.isEmpty then none
      else
        match tl with
        | [] => none
        | d :: r => if d = ':' then some r else none
    else none

/-- Fuelled scanner implementing `quizText.split(/Q\d+:/)`: segments between
successive `Q<number>:` markers, in order, with the text before the first
marker as segment 0.  Fuel is the length of the remaining input, which the
scan strictly decreases. -/
def splitQFuel : Nat → List Char → List Char → List (List Char)
  | _, acc, [] => [acc.reverse]
  | 0, acc, rem => [acc.reverse ++ rem]
  | n + 1, acc, c :: cs =>
    match matchQHeader (c :: cs) with
    | some rest => acc.reverse :: splitQFuel n [] rest
    | none => splitQFuel n (c :: acc) cs

/-- Model of `quizText.split(/Q\d+:/)` (src/components/old.App.tsx.2, line 86). -/
def splitQ (s : List Char) : List (List Char) :=
  splitQFuel s.length [] s

/-- A parsed question record (src/components/old.App.tsx.2, lines 5-11). -/
structure Question where
  id : Nat
  question : List Char
  optA : List Char
  optB : List Char
  optC : List Char
  optD : List Char
  correctAnswer : List Char
  explanation : List Char
deriving Repr, DecidableEq

/-- Default question used with `List.getD` in theorem statements. -/
def dummyQ : Question :=
  ⟨0, [], [], [], [], [], [], []⟩

/-- Accumulator for the per-line scan of one block
(the `options`/`correctAnswer`/`explanation` locals, lines 95-97). -/
structure ScanSt where
  optA : List Char
  optB : List Char
  optC : List Char
  optD : List Char
  ans : List Char
  expl : List Char
deriving Repr, DecidableEq

/-- One iteration of `lines.forEach(line => ...)`
(src/components/old.App.tsx.2, lines 99-107): classify the trimmed line by
its prefix and store the trimmed text after the prefix. -/
def scanLine (st : ScanSt) (line : List Char) : ScanSt :=
  let t := trimL line
  if startsWithL ['A', '.'] t then { st with optA := trimL (t.drop 2) }
  else if startsWithL ['B', '.'] t then { st with optB := trimL (t.drop 2) }
  else if startsWithL ['C', '.'] t then { st with optC := trimL (t.drop 2) }
  else if startsWithL ['D', '.'] t then { st with optD := trimL (t.drop 2) }
  else if startsWithL ['A', 'n', 's', 'w', 'e', 'r', ':'] t then
    { st with ans := trimL (t.drop 7) }
  else if startsWithL ['E', 'x', 'p', 'l', 'a', 'n', 'a', 't', 'i', 'o', 'n', ':'] t then
    { st with expl := trimL (t.drop 12) }
  else st

/-- Model of `block.trim().split('\n').filter(line => line.trim())`
(src/components/old.App.tsx.2, line 91). -/
def blockLines (block : List Char) : List (List Char) :=
  (splitOnChar '\n' (trimL block)).filter (fun l => !(trimL l).isEmpty)

/-- A question with its identifier still missing: what one block contributes
before `id: index` is attached. -/
structure QuestionData where
  question : List Char
  optA : List Char
  optB : List Char
  optC : List Char
  optD : List Char
  correctAnswer : List Char
  explanation : List Char
deriving Repr, DecidableEq

/-- Everything of one block except the identifier: the body of the
`questionBlocks.forEach` callback (src/components/old.App.tsx.2,
lines 89-117) minus the `index === 0` skip and the `id: index` field.
Returns `none` exactly when the source code pushes no question. -/
def parseCore (block : List Char) : Option QuestionData :=
  if (trimL block).isEmpty then none
  else
    let lines := blockLines block
    if lines.length < 6 then none
    else
      let questionText := trimL (lines.headD [])
      let st := lines.foldl scanLine ⟨[], [], [], [], [], []⟩
      if !questionText.isEmpty && !st.optA.isEmpty && !st.optB.isEmpty &&
         !st.optC.isEmpty && !st.optD.isEmpty && !st.ans.isEmpty then
        some ⟨questionText, st.optA, st.optB, st.optC, st.optD, st.ans, st.expl⟩
      else none

/-- The full `forEach` callback at block index `i`: index 0 is always
skipped (`if (index === 0 || !block.trim()) return`), otherwise a question
with `id := i` is produced iff the block passes the validation test. -/
def parseBlock (i : Nat) (block : List Char) : Option Question :=
  if i = 0 then none
  else
    (parseCore block).map (fun d =>
      ⟨i, d.question, d.optA, d.optB, d.optC, d.optD, d.correctAnswer, d.explanation⟩)

/-- Model of `questionBlocks.forEach((block, index) => ...)` with the conditional
`questions.push`, unrolled as a recursion over the blocks carrying the
running index. -/
def parseBlocksFrom (i : Nat) : List (List Char) → List Question
  | [] => []
  | b :: bs =>
    match parseBlock i b with
    | some q => q :: parseBlocksFrom (i + 1) bs
    | none => parseBlocksFrom (i + 1) bs

/-- Model of `parseQuizText` (src/components/old.App.tsx.2, lines 84-121). -/
def parseQuizText (text : List Char) : List Question :=
  parseBlocksFrom 0 (splitQ text)

/-- The post-parse check in `handleSubmit` (src/components/old.App.tsx.2,
lines 206-210): an empty parse result is turned into a thrown error, never
into an empty question pool. -/
def handleParsedQuiz (text : List Char) : Except String (List Question) :=
  let qs := parseQuizText text
  if qs.length = 0 then
    .error "No valid questions could be parsed from the generated quiz"
  else .ok qs

/-! ## Well-formed blocks

The spec's notion of a well-formed block (§6 grammar): a question line,
four option lines `A.`-`D.`, and an `Answer:` line, each carrying
non-empty payload text.  These predicates restate that grammar over the
non-empty trimmed lines of a block. -/

/-- The line `"<letter>. <text>"` with non-empty `<text>`. -/
def isOptionLine (letter : Char) (l : List Char) : Bool :=
  startsWithL [letter, '.'] (trimL l) &&
    !(trimL ((trimL l).drop 2)).isEmpty

/-- The line `"Answer: <text>"` with non-empty `<text>`. -/
def isAnswerLine (l : List Char) : Bool :=
  startsWithL ['A', 'n', 's', 'w', 'e', 'r', ':'] (trimL l) &&
    !(trimL ((trimL l).drop 7)).isEmpty

/-- A question-text line: non-empty after trimming and carrying none of the
classifying prefixes. -/
def isPlainLine (l : List Char) : Bool :=
  !(trimL l).isEmpty &&
  !startsWithL ['A', '.'] (trimL l) &&
  !startsWithL ['B', '.'] (trimL l) &&
  !startsWithL ['C', '.'] (trimL l) &&
  !startsWithL ['D', '.'] (trimL l) &&
  !startsWithL ['A', 'n', 's', 'w', 'e', 'r', ':'] (trimL l) &&
  !startsWithL ['E', 'x', 'p', 'l', 'a', 'n', 'a', 't', 'i', 'o', 'n', ':'] (trimL l)

/-- A block of the §6 grammar: exactly the six lines
question / A. / B. / C. / D. / Answer:, in order. -/
def wellFormedBlock (b : List Char) : Bool :=
  match blockLines b with
  | [q, la, lb, lc, ld, lans] =>
    isPlainLine q && isOptionLine 'A' la && isOptionLine 'B' lb &&
    isOptionLine 'C' lc && isOptionLine 'D' ld && isAnswerLine lans
  | _ => false

/-! ## Quiz session engine (src/components/old.App.tsx.2, lines 33-45 and 224-277)

The React `useState` cells that hold the quiz session are gathered into one
explicit state record; every handler becomes a state transformer.  The
`Math.random()`-driven comparator inside `startQuiz` is modelled by passing
the shuffled list as a parameter: ECMAScript guarantees `Array.prototype.sort`
returns a permutation of its input even for an inconsistent comparator, so
theorems quantify over any permutation of the pool. -/

/-- One recorded answer (src/components/old.App.tsx.2, lines 24-27). -/
structure UserAnswer where
  questionId : Nat
  selectedAnswer : List Char
deriving Repr, DecidableEq

/-- The quiz-related `useState` cells (src/components/old.App.tsx.2,
lines 34 and 40-45). -/
structure QuizState where
  numQuestions : Nat
  fullQuizData : List Question
  currentQuiz : List Question
  currentQuestionIndex : Nat
  userAnswers : List UserAnswer
  quizCompleted : Bool
  showResults : Bool
deriving Repr, DecidableEq

/-- Model of `startQuiz` (lines 225-233): slice the shuffled pool to `numQuestions`
questions and reset cursor, answers and completion flags.  `shuffled` stands
for `[...questions].sort(() => Math.random() - 0.5)`. -/
def startQuiz (shuffled : List Question) (s : QuizState) : QuizState :=
  { s with
    currentQuiz := shuffled.take s.numQuestions
    currentQuestionIndex := 0
    userAnswers := []
    quizCompleted := false
    showResults := false }

/-- Model of `retakeQuiz` (lines 235-240): reset cursor, answers and flags while the
sampled `currentQuiz` is left untouched. -/
def retakeQuiz (s : QuizState) : QuizState :=
  { s with
    currentQuestionIndex := 0
    userAnswers := []
    quizCompleted := false
    showResults := false }

/-- Model of `selectAnswer` (lines 242-247): drop any previous answer for the current
question and append the new one. -/
def selectAnswer (answer : List Char) (s : QuizState) : QuizState :=
  match s.currentQuiz.get? s.currentQuestionIndex with
  | none => s
  | some q =>
    { s with
      userAnswers :=
        (s.userAnswers.filter (fun a => a.questionId != q.id)) ++
          [⟨q.id, answer⟩] }

/-- Model of `userAnswers.find(a => a.questionId === question.id)`
(lines 268 and 277). -/
def answerFor (answers : List UserAnswer) (qid : Nat) : Option UserAnswer :=
  answers.find? (fun a => a.questionId == qid)

/-- Model of `calculateScore` (lines 265-274): fold over the sampled questions,
counting those whose recorded answer matches the correct answer. -/
def calculateScore (s : QuizState) : Nat :=
  s.currentQuiz.foldl
    (fun correct q =>
      match answerFor s.userAnswers q.id with
      | some ua => if ua.selectedAnswer = q.correctAnswer then correct + 1 else correct
      | none => correct)
    0

/-- The score report rendered on the results screen (line 441,
`calculateScore()/currentQuiz.length`): the pair (correct, total). -/
def scoreReport (s : QuizState) : Nat × Nat :=
  (calculateScore s, s.currentQuiz.length)

/-- One invocation of the score computation as seen by a caller: the
returned pair together with the (unchanged) session state. -/
def scoreCall (s : QuizState) : (Nat × Nat) × QuizState :=
  (scoreReport s, s)

/-- The Boolean the score fold tests for one question
(line 269, `userAnswer && userAnswer.selectedAnswer === question.correctAnswer`). -/
def isCorrectlyAnswered (answers : List UserAnswer) (q : Question) : Bool :=
  match answerFor answers q.id with
  | some ua => ua.selectedAnswer = q.correctAnswer
  | none => false

/-! ## File validation and text extraction (src/pages/api/generate-quiz.ts)

The repository file contains two concatenated versions of the API route:
an early one (file lines 1-120, called V1 below) and the enhanced one
(file lines 122-451).  Both are modelled.  Effectful adapters (reading the
upload, pdf-parse, mammoth, the tesseract worker) are embedded by passing
their outcomes in an environment record and recording the performed
side effects in an event trace. -/

/-- Outcome of `validateFile` (enhanced version, lines 168-181): the thrown
error messages carry the offending extension resp. the measured size. -/
inductive FileError where
  | missingName
  | badExt (ext : List Char)
  | tooLarge (size : Nat)
deriving Repr, DecidableEq

/-- The `ALLOWED_EXTENSIONS` constant (line 165). -/
def ALLOWED_EXTENSIONS : List (List Char) :=
  ["pdf".toList, "docx".toList, "txt".toList, "rtf".toList,
   "jpg".toList, "jpeg".toList, "png".toList]

/-- The constant `MAX_FILE_SIZE = 10 * 1024 * 1024` (line 166). -/
def MAX_FILE_SIZE : Nat := 10 * 1024 * 1024

/-- Model of `parseFileExt` (lines 187-189): `fileName.split('.').pop()?.toLowerCase() || ""`.
`split('.')` always yields at least one segment, `pop` takes the last one. -/
def parseFileExt (fileName : List Char) : List Char :=
  ((splitOnChar '.' fileName).getLastD []).map Char.toLower

/-- Model of `validateFile` (lines 168-181).  `originalFilename` is optional and a
present-but-empty name is just as falsy in `!file.originalFilename`; the
size check `file.size && file.size > MAX_FILE_SIZE` skips a missing or
zero size. -/
def validateFile (originalFilename : Option (List Char)) (size : Option Nat) :
    Except FileError Unit :=
  match originalFilename with
  | none => .error .missingName
  | some name =>
    if name.isEmpty then .error .missingName
    else
      let ext := parseFileExt name
      if ALLOWED_EXTENSIONS.contains ext = false then .error (.badExt ext)
      else
        match size with
        | none => .ok ()
        | some sz =>
          if sz ≠ 0 ∧ MAX_FILE_SIZE < sz then .error (.tooLarge sz)
          else .ok ()

/-- The metadata of an uploaded file consumed by validation and dispatch
(the `UploadedFile` fields actually read by `extractText`). -/
structure FileMeta where
  originalFilename : Option (List Char)
  size : Option Nat
deriving Repr, DecidableEq

/-- Side effects performed by `extractText`, in order. -/
inductive Ev where
  | validate
  | readFile
  | acquireWorker
  | recognize
  | terminateWorker
deriving Repr, DecidableEq

/-- Outcome of one effectful adapter call (pdf-parse, mammoth, or
`worker.recognize`): either the text it produced or the exception it threw. -/
inductive AdapterOutcome where
  | ok (text : List Char)
  | throws (msg : List Char)
deriving Repr, DecidableEq

/-- Environment fixing the outcomes of the effectful adapters for one
`extractText` call. -/
structure ExtractEnv where
  fileContent : List Char
  pdf : AdapterOutcome
  docx : AdapterOutcome
  ocr : AdapterOutcome
deriving Repr, DecidableEq

/-- Errors surfaced by `extractText`; the string messages of the source are
abstracted into their cause. -/
inductive ExtractErr where
  | invalidFile (e : FileError)
  | emptyContent (ext : List Char)
  | adapterFailed (msg : List Char)
  | unsupported (ext : List Char)
deriving Repr, DecidableEq

/-- Enhanced `extractText` (src/pages/api/generate-quiz.ts, lines 191-241):
validate first, then read the upload, then dispatch on the extension.  On
the image path the tesseract worker is created, `recognize` runs inside
`try`, and `worker.terminate()` sits in the `finally` block, so the
terminate event is emitted on the success, empty-text and throw paths
alike.  Returns the event trace and the result. -/
def extractText (meta : FileMeta) (env : ExtractEnv) :
    List Ev × Except ExtractErr (List Char) :=
  match validateFile meta.originalFilename meta.size with
  | .error e => ([Ev.validate], .error (.invalidFile e))
  | .ok _ =>
    let ext := parseFileExt (meta.originalFilename.getD [])
    let pre := [Ev.validate, Ev.readFile]
    if ext = "pdf".toList then
      match env.pdf with
      | .ok t =>
        if (trimL t).isEmpty then (pre, .error (.emptyContent ext))
        else (pre, .ok t)
      | .throws m => (pre, .error (.adapterFailed m))
    else if ext = "docx".toList then
      match env.docx with
      | .ok t =>
        if (trimL t).isEmpty then (pre, .error (.emptyContent ext))
        else (pre, .ok t)
      | .throws m => (pre, .error (.adapterFailed m))
    else if ext = "txt".toList ∨ ext = "rtf".toList then
      if (trimL env.fileContent).isEmpty then (pre, .error (.emptyContent ext))
      else (pre, .ok env.fileContent)
    else if ext = "jpg".toList ∨ ext = "jpeg".toList ∨ ext = "png".toList then
      let tr := pre ++ [Ev.acquireWorker, Ev.recognize, Ev.terminateWorker]
      match env.ocr with
      | .ok t =>
        if (trimL t).isEmpty then (tr, .error (.emptyContent ext))
        else (tr, .ok t)
      | .throws m => (tr, .error (.adapterFailed m))
    else (pre, .error (.unsupported ext))

/-- V1 `extractText` (src/pages/api/generate-quiz.ts, lines 29-51): no
validation, no emptiness checks, and on the image path (lines 44-49)
`worker.terminate()` is a plain statement after `worker.recognize` with no
`try`/`finally`, so a throwing recognition skips it. -/
def extractTextV1 (meta : FileMeta) (env : ExtractEnv) :
    List Ev × Except ExtractErr (List Char) :=
  let ext := parseFileExt (meta.originalFilename.getD [])
  let pre := [Ev.readFile]
  if ext = "pdf".toList then
    match env.pdf with
    | .ok t => (pre, .ok t)
    | .throws m => (pre, .error (.adapterFailed m))
  else if ext = "docx".toList then
    match env.docx with
    | .ok t => (pre, .ok t)
    | .throws m => (pre, .error (.adapterFailed m))
  else if ext = "txt".toList ∨ ext = "rtf".toList then (pre, .ok env.fileContent)
  else if ext = "jpg".toList ∨ ext = "jpeg".toList ∨ ext = "png".toList then
    match env.ocr with
    | .ok t => (pre ++ [Ev.acquireWorker, Ev.recognize, Ev.terminateWorker], .ok t)
    | .throws m => (pre ++ [Ev.acquireWorker, Ev.recognize], .error (.adapterFailed m))
  else (pre, .error (.unsupported ext))

/-! ## Concrete inputs used by counterexamples and witnesses -/

/-- A raw quiz text whose single block is fully populated but whose
`Answer:` line carries the letter `E`. -/
def answerETtext : List Char :=
  ("Q1: Which vowel?\nA. aa\nB. bb\nC. cc\nD. dd\nAnswer: E").toList

/-- A raw quiz text made of two well-formed blocks. -/
def twoBlockText : List Char :=
  ("Q1: First?\nA. a1\nB. b1\nC. c1\nD. d1\nAnswer: A\n" ++
   "Q2: Second?\nA. a2\nB. b2\nC. c2\nD. d2\nAnswer: C").toList

/-- The segment `splitQ` produces for the first block of `twoBlockText`. -/
def twoBlockSeg1 : List Char :=
  (" First?\nA. a1\nB. b1\nC. c1\nD. d1\nAnswer: A\n").toList

/-- The segment `splitQ` produces for the second block of `twoBlockText`. -/
def twoBlockSeg2 : List Char :=
  (" Second?\nA. a2\nB. b2\nC. c2\nD. d2\nAnswer: C").toList

/-- Three blocks: well-formed, malformed (option `D.` missing), well-formed. -/
def mixedText : List Char :=
  ("Q1: First?\nA. a1\nB. b1\nC. c1\nD. d1\nAnswer: A\n" ++
   "Q2: Broken?\nA. a2\nB. b2\nC. c2\nAnswer: B\n" ++
   "Q3: Third?\nA. a3\nB. b3\nC. c3\nD. d3\nAnswer: D").toList

/-- The `splitQ` segment 1 of `mixedText`. -/
def mixedSeg1 : List Char :=
  (" First?\nA. a1\nB. b1\nC. c1\nD. d1\nAnswer: A\n").toList

/-- The `splitQ` segment 2 of `mixedText`: only five non-empty lines. -/
def mixedSeg2 : List Char :=
  (" Broken?\nA. a2\nB. b2\nC. c2\nAnswer: B\n").toList

/-- The `splitQ` segment 3 of `mixedText`. -/
def mixedSeg3 : List Char :=
  (" Third?\nA. a3\nB. b3\nC. c3\nD. d3\nAnswer: D").toList

/-- Raw text with no well-formed block at all. -/
def garbageText : List Char :=
  ("thanks for asking, here is the quiz\nQ1: oops").toList

/-- Two distinct sample questions for session-engine witnesses. -/
def sampleQ1 : Question :=
  ⟨1, "First?".toList, "a1".toList, "b1".toList, "c1".toList, "d1".toList,
   "A".toList, []⟩

/-- Second sample question. -/
def sampleQ2 : Question :=
  ⟨2, "Second?".toList, "a2".toList, "b2".toList, "c2".toList, "d2".toList,
   "C".toList, []⟩

/-- A completed session over the two sample questions. -/
def sampleState : QuizState :=
  { numQuestions := 5
    fullQuizData := [sampleQ1, sampleQ2]
    currentQuiz := [sampleQ1, sampleQ2]
    currentQuestionIndex := 0
    userAnswers := [⟨1, "A".toList⟩, ⟨2, "B".toList⟩]
    quizCompleted := true
    showResults := true }

/-- Metadata of an uploaded image file. -/
def jpgMeta : FileMeta := ⟨some ("scan.jpg".toList), some 1000⟩

/-- Adapter environment in which the OCR recognizer throws. -/
def ocrThrowsEnv : ExtractEnv :=
  ⟨"body".toList, .ok "pdf text".toList, .ok "docx text".toList,
   .throws ("ocr crashed".toList)⟩

/-- Adapter environment in which the OCR recognizer succeeds. -/
def ocrOkEnv : ExtractEnv :=
  ⟨"body".toList, .ok "pdf text".toList, .ok "docx text".toList,
   .ok ("recognized words".toList)⟩

/-! ## Helper lemmas about the line scanner -/

theorem startsWithL_eq_append {p s : List Char} (h : startsWithL p s = true) :
    ∃ r, s = p ++ r := by
  rw [startsWithL, List.isPrefixOf_iff_prefix] at h
  obtain ⟨r, hr⟩ := h
  exact ⟨r, hr.symm⟩

theorem scanLine_plain (st : ScanSt) {l : List Char} (h : isPlainLine l = true) :
    scanLine st l = st := by
  unfold isPlainLine at h
  simp only [Bool.and_eq_true, Bool.not_eq_true'] at h
  obtain ⟨⟨⟨⟨⟨⟨-, hA⟩, hB⟩, hC⟩, hD⟩, hAns⟩, hExp⟩ := h
  simp [scanLine, hA, hB, hC, hD, hAns, hExp]

theorem scanLine_optA (st : ScanSt) {l : List Char}
    (h : startsWithL ['A', '.'] (trimL l) = true) :
    scanLine st l = { st with optA := trimL ((trimL l).drop 2) } := by
  simp [scanLine, h]

theorem scanLine_optB (st : ScanSt) {l : List Char}
    (h : startsWithL ['B', '.'] (trimL l) = true) :
    scanLine st l = { st with optB := trimL ((trimL l).drop 2) } := by
  obtain ⟨r, hr⟩ := startsWithL_eq_append h
  simp [scanLine, hr, startsWithL, List.isPrefixOf]

theorem scanLine_optC (st : ScanSt) {l : List Char}
    (h : startsWithL ['C', '.'] (trimL l) = true) :
    scanLine st l = { st with optC := trimL ((trimL l).drop 2) } := by
  obtain ⟨r, hr⟩ := startsWithL_eq_append h
  simp [scanLine, hr, startsWithL, List.isPrefixOf]

theorem scanLine_optD (st : ScanSt) {l : List Char}
    (h : startsWithL ['D', '.'] (trimL l) = true) :
    scanLine st l = { st with optD := trimL ((trimL l).drop 2) } := by
  obtain ⟨r, hr⟩ := startsWithL_eq_append h
  simp [scanLine, hr, startsWithL, List.isPrefixOf]

theorem scanLine_answer (st : ScanSt) {l : List Char}
    (h : startsWithL ['A', 'n', 's', 'w', 'e', 'r', ':'] (trimL l) = true) :
    scanLine st l = { st with ans := trimL ((trimL l).drop 7) } := by
  obtain ⟨r, hr⟩ := startsWithL_eq_append h
  simp [scanLine, hr, startsWithL, List.isPrefixOf]

/-! ## The parser on well-formed blocks -/

theorem parseCore_of_wf {b : List Char} (h : wellFormedBlock b = true) :
    (parseCore b).isSome = true := by
  unfold wellFormedBlock at h
  split at h
  next q la lb lc ld lans hbl =>
    simp only [Bool.and_eq_true] at h
    obtain ⟨⟨⟨⟨⟨hq, hA⟩, hB⟩, hC⟩, hD⟩, hAns⟩ := h
    obtain ⟨hApre, hAne⟩ :
        startsWithL ['A', '.'] (trimL la) = true ∧
          (trimL ((trimL la).drop 2)).isEmpty = false := by
      simpa [isOptionLine, Bool.not_eq_true'] using hA
    obtain ⟨hBpre, hBne⟩ :
        startsWithL ['B', '.'] (trimL lb) = true ∧
          (trimL ((trimL lb).drop 2)).isEmpty = false := by
      simpa [isOptionLine, Bool.not_eq_true'] using hB
    obtain ⟨hCpre, hCne⟩ :
        startsWithL ['C', '.'] (trimL lc) = true ∧
          (trimL ((trimL lc).drop 2)).isEmpty = false := by
      simpa [isOptionLine, Bool.not_eq_true'] using hC
    obtain ⟨hDpre, hDne⟩ :
        startsWithL ['D', '.'] (trimL ld) = true ∧
          (trimL ((trimL ld).drop 2)).isEmpty = false := by
      simpa [isOptionLine, Bool.not_eq_true'] using hD
    obtain ⟨hAnsPre, hAnsNe⟩ :
        startsWithL ['A', 'n', 's', 'w', 'e', 'r', ':'] (trimL lans) = true ∧
          (trimL ((trimL lans).drop 7)).isEmpty = false := by
      simpa [isAnswerLine, Bool.not_eq_true'] using hAns
    have hplain := hq
    simp only [isPlainLine, Bool.and_eq_true, Bool.not_eq_true'] at hplain
    obtain ⟨⟨⟨⟨⟨⟨hqne, -⟩, -⟩, -⟩, -⟩, -⟩, -⟩ := hplain
    have hne : (trimL b).isEmpty = false := by
      cases he : (trimL b).isEmpty
      · rfl
      · exfalso
        have hb0 : trimL b = [] := List.isEmpty_iff.mp he
        unfold blockLines at hbl
        rw [hb0] at hbl
        simp [splitOnChar, trimL] at hbl
    have hfold :
        List.foldl scanLine ⟨[], [], [], [], [], []⟩ [q, la, lb, lc, ld, lans] =
          ⟨trimL ((trimL la).drop 2), trimL ((trimL lb).drop 2),
           trimL ((trimL lc).drop 2), trimL ((trimL ld).drop 2),
           trimL ((trimL lans).drop 7), []⟩ := by
      rw [List.foldl_cons, scanLine_plain _ hq,
          List.foldl_cons, scanLine_optA _ hApre,
          List.foldl_cons, scanLine_optB _ hBpre,
          List.foldl_cons, scanLine_optC _ hCpre,
          List.foldl_cons, scanLine_optD _ hDpre,
          List.foldl_cons, scanLine_answer _ hAnsPre,
          List.foldl_nil]
    unfold parseCore
    simp only [hne, Bool.false_eq_true, if_false, hbl, hfold]
    simp [hqne, hAne, hBne, hCne, hDne, hAnsNe]
  next => simp at h

theorem parseBlock_of_wf {b : List Char} {i : Nat} (hi : i ≠ 0)
    (h : wellFormedBlock b = true) :
    ∃ q, parseBlock i b = some q ∧ q.id = i := by
  obtain ⟨d, hd⟩ := Option.isSome_iff_exists.mp (parseCore_of_wf h)
  exact ⟨⟨i, d.question, d.optA, d.optB, d.optC, d.optD, d.correctAnswer, d.explanation⟩,
    by simp [parseBlock, hi, hd], rfl⟩

theorem parseBlock_core_none {b : List Char} (i : Nat) (h : parseCore b = none) :
    parseBlock i b = none := by
  cases i <;> simp [parseBlock, h]

theorem parseBlocksFrom_wf :
    ∀ (bs : List (List Char)) (k : Nat), 1 ≤ k →
      (∀ b ∈ bs, wellFormedBlock b = true) →
      (parseBlocksFrom k bs).length = bs.length ∧
      ∀ j, j < bs.length →
        parseBlock (k + j) (bs.getD j []) =
            some ((parseBlocksFrom k bs).getD j dummyQ) ∧
        ((parseBlocksFrom k bs).getD j dummyQ).id = k + j := by
  intro bs
  induction bs with
  | nil => intro k _ _; exact ⟨rfl, fun j hj => absurd hj (by simp)⟩
  | cons b bs ih =>
    intro k hk hwf
    obtain ⟨q, hq, hqid⟩ :=
      parseBlock_of_wf (Nat.one_le_iff_ne_zero.mp hk) (hwf b (by simp))
    have hrec : parseBlocksFrom k (b :: bs) = q :: parseBlocksFrom (k + 1) bs := by
      simp [parseBlocksFrom, hq]
    obtain ⟨ihlen, ihidx⟩ :=
      ih (k + 1) (by omega) (fun b hb => hwf b (by simp [hb]))
    refine ⟨by simp [hrec, ihlen], ?_⟩
    intro j hj
    cases j with
    | zero => simpa [hrec] using ⟨hq, hqid⟩
    | succ j =>
      have hj' : j < bs.length := by simpa using hj
      have := ihidx j hj'
      have harith : k + (j + 1) = k + 1 + j := by omega
      simpa [hrec, harith] using this

theorem parseBlocksFrom_append :
    ∀ (xs ys : List (List Char)) (k : Nat),
      parseBlocksFrom k (xs ++ ys) =
        parseBlocksFrom k xs ++ parseBlocksFrom (k + xs.length) ys := by
  intro xs
  induction xs with
  | nil => intro ys k; simp [parseBlocksFrom]
  | cons x xs ih =>
    intro ys k
    have harith : k + (xs.length + 1) = k + 1 + xs.length := by omega
    cases hx : parseBlock k x with
    | some q => simp [parseBlocksFrom, hx, ih ys (k + 1), harith]
    | none => simp [parseBlocksFrom, hx, ih ys (k + 1), harith]

theorem parseBlocksFrom_all_none :
    ∀ (bs : List (List Char)) (k : Nat),
      (∀ b ∈ bs, parseCore b = none) → parseBlocksFrom k bs = [] := by
  intro bs
  induction bs with
  | nil => intro k _; rfl
  | cons b bs ih =>
    intro k h
    have hb : parseBlock k b = none := parseBlock_core_none k (h b (by simp))
    simp [parseBlocksFrom, hb, ih (k + 1) (fun b hb => h b (by simp [hb]))]

/-- C2: for every raw quiz text whose `splitQ` segments after the leading
one are all well-formed blocks, `parseQuizText` returns exactly one
Question per block, in block order, with identifiers assigned by that
order starting at the stable base 1. -/
theorem parseQuizText_wellformed_blocks
    (text b0 : List Char) (bs : List (List Char))
    (hsplit : splitQ text = b0 :: bs)
    (hwf : ∀ b ∈ bs, wellFormedBlock b = true) :
    (parseQuizText text).length = bs.length ∧
    ∀ j, j < bs.length →
      ((parseQuizText text).getD j dummyQ).id = j + 1 ∧
      parseBlock (j + 1) (bs.getD j []) =
        some ((parseQuizText text).getD j dummyQ) := by
  have h0 : parseQuizText text = parseBlocksFrom 1 bs := by
    rw [parseQuizText, hsplit]
    simp [parseBlocksFrom, parseBlock]
  obtain ⟨hlen, hidx⟩ := parseBlocksFrom_wf bs 1 le_rfl hwf
  refine ⟨by rw [h0, hlen], ?_⟩
  intro j hj
  obtain ⟨h1, h2⟩ := hidx j hj
  rw [Nat.add_comm 1 j] at h1 h2
  exact ⟨by rw [h0, h2], by rw [h0]; exact h1⟩

/-- Witness for C2: the concrete two-block text parses to two questions
with identifiers 1 and 2. -/
theorem parseQuizText_wellformed_blocks_witness :
    (parseQuizText twoBlockText).length = 2 ∧
    ((parseQuizText twoBlockText).getD 0 dummyQ).id = 1 ∧
    ((parseQuizText twoBlockText).getD 1 dummyQ).id = 2 := by
  have h := parseQuizText_wellformed_blocks twoBlockText []
    [twoBlockSeg1, twoBlockSeg2] (by decide) (by decide)
  exact ⟨h.1, (h.2 0 (by decide)).1, (h.2 1 (by decide)).1⟩

/-- C5: a block that yields no Question, sitting between well-formed
blocks, is dropped while every surrounding well-formed block still yields
its Question, with its block-position identifier. -/
theorem parseQuizText_drops_malformed_block
    (text b0 m : List Char) (xs ys : List (List Char))
    (hsplit : splitQ text = b0 :: (xs ++ m :: ys))
    (hxs : ∀ b ∈ xs, wellFormedBlock b = true)
    (hys : ∀ b ∈ ys, wellFormedBlock b = true)
    (hm : parseCore m = none) :
    (parseQuizText text).length = xs.length + ys.length ∧
    (∀ j, j < xs.length →
      ((parseQuizText text).getD j dummyQ).id = j + 1 ∧
      parseBlock (j + 1) (xs.getD j []) =
        some ((parseQuizText text).getD j dummyQ)) ∧
    (∀ j, j < ys.length →
      ((parseQuizText text).getD (xs.length + j) dummyQ).id = xs.length + 2 + j ∧
      parseBlock (xs.length + 2 + j) (ys.getD j []) =
        some ((parseQuizText text).getD (xs.length + j) dummyQ)) := by
  have h0 : parseQuizText text =
      parseBlocksFrom 1 xs ++ parseBlocksFrom (xs.length + 2) ys := by
    rw [parseQuizText, hsplit]
    have hskip : parseBlocksFrom 0 (b0 :: (xs ++ m :: ys)) =
        parseBlocksFrom 1 (xs ++ m :: ys) := by
      simp [parseBlocksFrom, parseBlock]
    have hm' : parseBlock (1 + xs.length) m = none := parseBlock_core_none _ hm
    rw [hskip, parseBlocksFrom_append,
      show parseBlocksFrom (1 + xs.length) (m :: ys) =
          parseBlocksFrom (1 + xs.length + 1) ys from by simp [parseBlocksFrom, hm'],
      show 1 + xs.length + 1 = xs.length + 2 from by omega]
  obtain ⟨hxlen, hxidx⟩ := parseBlocksFrom_wf xs 1 le_rfl hxs
  obtain ⟨hylen, hyidx⟩ := parseBlocksFrom_wf ys (xs.length + 2) (by omega) hys
  refine ⟨by rw [h0]; simp [hxlen, hylen], ?_, ?_⟩
  · intro j hj
    obtain ⟨h1, h2⟩ := hxidx j hj
    rw [Nat.add_comm 1 j] at h1 h2
    have hga : (parseQuizText text).getD j dummyQ =
        (parseBlocksFrom 1 xs).getD j dummyQ := by
      rw [h0]
      exact List.getD_append _ _ _ _ (by rw [hxlen]; exact hj)
    exact ⟨by rw [hga, h2], by rw [hga]; exact h1⟩
  · intro j hj
    obtain ⟨h1, h2⟩ := hyidx j hj
    have hga : (parseQuizText text).getD (xs.length + j) dummyQ =
        (parseBlocksFrom (xs.length + 2) ys).getD j dummyQ := by
      rw [h0, List.getD_append_right _ _ _ _ (by rw [hxlen]; omega), hxlen,
        show xs.length + j - xs.length = j from by omega]
    exact ⟨by rw [hga, h2], by rw [hga]; exact h1⟩

set_option maxRecDepth 4000 in
/-- Witness for C5: in the concrete three-block text whose middle block
lacks option `D.`, the parse keeps questions 1 and 3 (identifiers 1 and 3)
and drops the middle block. -/
theorem parseQuizText_drops_malformed_block_witness :
    (parseQuizText mixedText).length = 2 ∧
    ((parseQuizText mixedText).getD 0 dummyQ).id = 1 ∧
    ((parseQuizText mixedText).getD 1 dummyQ).id = 3 := by
  have h := parseQuizText_drops_malformed_block mixedText [] mixedSeg2
    [mixedSeg1] [mixedSeg3] (by decide) (by decide) (by decide) (by decide)
  exact ⟨h.1, (h.2.1 0 (by decide)).1, (h.2.2 0 (by decide)).1⟩

/-- C6: the pipeline never proceeds with an empty question pool: when no
block of the raw text yields a Question, `handleSubmit`'s post-parse check
throws the "no valid questions" error, and a successful result always
carries a non-empty pool. -/
theorem handleParsedQuiz_rejects_empty_pool :
    (∀ text : List Char,
      (∀ b ∈ splitQ text, parseCore b = none) →
      handleParsedQuiz text =
        .error "No valid questions could be parsed from the generated quiz") ∧
    (∀ (text : List Char) (qs : List Question),
      handleParsedQuiz text = .ok qs → qs ≠ []) := by
  constructor
  · intro text h
    have hempty : parseQuizText text = [] :=
      parseBlocksFrom_all_none (splitQ text) 0 h
    simp [handleParsedQuiz, hempty]
  · intro text qs h
    by_cases hlen : (parseQuizText text).length = 0
    · simp [handleParsedQuiz, hlen] at h
    · simp only [handleParsedQuiz, hlen, if_false, Except.ok.injEq] at h
      subst h
      simpa [List.length_eq_zero] using hlen

/-- Witness for C6: the concrete garbage text (its only `Q<n>:` block has a
single line) is rejected with the "no valid questions" error. -/
theorem handleParsedQuiz_rejects_empty_pool_witness :
    handleParsedQuiz garbageText =
      .error "No valid questions could be parsed from the generated quiz" :=
  handleParsedQuiz_rejects_empty_pool.1 garbageText (by decide)

/-- C1 fails on the code: the block `"Q1: Which vowel? / A. aa / B. bb /
C. cc / D. dd / Answer: E"` is fully populated except that its answer
letter is `E`, yet `parseQuizText` produces a Question from it, with
`correctAnswer = "E"` — the parser stores the whole trimmed text after
`"Answer:"` and only checks it is non-empty, never that it is a single
letter in {A, B, C, D}. -/
theorem parseQuizText_accepts_non_letter_answer :
    (parseQuizText answerETtext).length = 1 ∧
    ((parseQuizText answerETtext).getD 0 dummyQ).correctAnswer = ['E'] ∧
    ((parseQuizText answerETtext).getD 0 dummyQ).correctAnswer ∉
      [['A'], ['B'], ['C'], ['D']] := by
  decide

/-- C3: starting a quiz over a non-empty pool with any shuffled permutation
of it yields a sample of size min(requested count, pool size), drawn
without replacement: the sample repeats no question identifier whenever
the pool has none repeated. -/
theorem startQuiz_capped_nodup_sample
    (pool shuffled : List Question) (s : QuizState)
    (_hpool : pool ≠ [])
    (hperm : shuffled.Perm pool) :
    ((startQuiz shuffled s).currentQuiz).length =
      min s.numQuestions pool.length ∧
    ((pool.map Question.id).Nodup →
      (((startQuiz shuffled s).currentQuiz).map Question.id).Nodup) := by
  constructor
  · simp [startQuiz, List.length_take, hperm.length_eq]
  · intro hnd
    have h1 : (shuffled.map Question.id).Nodup :=
      ((hperm.map Question.id).nodup_iff).mpr hnd
    have h2 : List.Sublist ((shuffled.take s.numQuestions).map Question.id)
        (shuffled.map Question.id) := by
      rw [List.map_take]
      exact List.take_sublist _ _
    exact List.Nodup.sublist h2 h1

/-- Witness for C3: pool of the two sample questions, shuffled into reverse
order, requested count 5: the sample has size min 5 2 = 2 and its
identifiers are distinct. -/
theorem startQuiz_capped_nodup_sample_witness :
    ((startQuiz [sampleQ2, sampleQ1] sampleState).currentQuiz).length =
      min 5 2 ∧
    (((startQuiz [sampleQ2, sampleQ1] sampleState).currentQuiz).map
        Question.id).Nodup := by
  have h := startQuiz_capped_nodup_sample [sampleQ1, sampleQ2]
    [sampleQ2, sampleQ1] sampleState (by decide) (by decide)
  exact ⟨h.1, h.2 (by decide)⟩

theorem calculateScore_eq_countP (s : QuizState) :
    calculateScore s =
      s.currentQuiz.countP (isCorrectlyAnswered s.userAnswers) := by
  have hbody : (fun (correct : Nat) (q : Question) =>
      match answerFor s.userAnswers q.id with
      | some ua =>
        if ua.selectedAnswer = q.correctAnswer then correct + 1 else correct
      | none => correct) =
      fun (correct : Nat) (q : Question) =>
        if isCorrectlyAnswered s.userAnswers q then correct + 1 else correct := by
    funext c q
    unfold isCorrectlyAnswered
    cases answerFor s.userAnswers q.id with
    | none => simp
    | some ua =>
      by_cases hc : ua.selectedAnswer = q.correctAnswer <;> simp [hc]
  have key : ∀ (l : List Question) (n : Nat),
      l.foldl
        (fun (c : Nat) (q : Question) =>
          if isCorrectlyAnswered s.userAnswers q then c + 1 else c) n =
        n + l.countP (isCorrectlyAnswered s.userAnswers) := by
    intro l
    induction l with
    | nil => intro n; simp
    | cons q l ih =>
      intro n
      simp only [List.foldl_cons, List.countP_cons]
      by_cases hq : isCorrectlyAnswered s.userAnswers q = true
      · simp only [hq, if_true, ih]
        omega
      · simp only [hq, if_false, ih, Bool.false_eq_true]
        omega
  unfold calculateScore
  rw [hbody]
  exact (key s.currentQuiz 0).trans (Nat.zero_add _)

/-- C4: the score report is the pair (number of sampled questions whose
recorded answer letter equals that question's correct letter, sample
size); computing it returns the state unchanged, repeated calls return the
identical pair, and recording an answer overwrites any earlier one so the
answer the score consults is the most recent. -/
theorem score_pure_idempotent_counts_matches
    (s : QuizState) (q : Question) (a : List Char)
    (hq : s.currentQuiz.get? s.currentQuestionIndex = some q) :
    scoreReport s =
      (s.currentQuiz.countP (isCorrectlyAnswered s.userAnswers),
        s.currentQuiz.length) ∧
    (scoreCall s).2 = s ∧
    (scoreCall ((scoreCall s).2)).1 = (scoreCall s).1 ∧
    answerFor (selectAnswer a s).userAnswers q.id = some ⟨q.id, a⟩ := by
  refine ⟨?_, rfl, rfl, ?_⟩
  · rw [scoreReport, calculateScore_eq_countP]
  · simp only [selectAnswer, hq]
    rw [answerFor, List.find?_append]
    have hnone : (s.userAnswers.filter (fun x => x.questionId != q.id)).find?
        (fun x => x.questionId == q.id) = none := by
      rw [List.find?_eq_none]
      intro x hx
      have hne := (List.mem_filter.mp hx).2
      simp only [bne_iff_ne, ne_eq] at hne
      simp [hne]
    rw [hnone]
    simp [List.find?]

/-- Witness for C4 at the concrete completed session: the report is (1, 2)
and re-answering question 1 with "B" overwrites the stored answer. -/
theorem score_pure_idempotent_counts_matches_witness :
    scoreReport sampleState = (1, 2) ∧
    answerFor (selectAnswer ("B".toList) sampleState).userAnswers 1 =
      some ⟨1, "B".toList⟩ := by
  have h := score_pure_idempotent_counts_matches sampleState sampleQ1
    ("B".toList) (by decide)
  exact ⟨by rw [h.1]; decide, h.2.2.2⟩

/-- C8: retaking the same quiz keeps the sampled sequence (and the full
pool) identical, clears all recorded answers, resets the cursor to 0, and
clears the completed/results flags. -/
theorem retakeQuiz_same_sample_resets_progress
    (s : QuizState) (_hdone : s.quizCompleted = true) :
    (retakeQuiz s).currentQuiz = s.currentQuiz ∧
    (retakeQuiz s).userAnswers = [] ∧
    (retakeQuiz s).currentQuestionIndex = 0 ∧
    (retakeQuiz s).quizCompleted = false ∧
    (retakeQuiz s).showResults = false ∧
    (retakeQuiz s).fullQuizData = s.fullQuizData ∧
    (retakeQuiz s).numQuestions = s.numQuestions := by
  simp [retakeQuiz]

/-- Witness for C8 at the concrete completed session. -/
theorem retakeQuiz_same_sample_resets_progress_witness :
    (retakeQuiz sampleState).currentQuiz = [sampleQ1, sampleQ2] ∧
    (retakeQuiz sampleState).userAnswers = [] ∧
    (retakeQuiz sampleState).currentQuestionIndex = 0 ∧
    (retakeQuiz sampleState).quizCompleted = false := by
  have h := retakeQuiz_same_sample_resets_progress sampleState (by decide)
  exact ⟨h.1, h.2.1, h.2.2.1, h.2.2.2.1⟩

theorem splitOnChar_not_mem {sep : Char} :
    ∀ {l : List Char}, sep ∉ l → splitOnChar sep l = [l] := by
  intro l
  induction l with
  | nil => intro _; rfl
  | cons c cs ih =>
    intro h
    have hc : ¬ c = sep := fun he => h (by simp [he])
    have hcs : sep ∉ cs := fun hm => h (by simp [hm])
    simp [splitOnChar, hc, ih hcs]

/-- C10: for every declared filename containing no '.', `parseFileExt`
returns the entire filename lower-cased (so non-empty for a non-empty
name), and a file whose full name is exactly "pdf" (no dot) passes the
extension check of file validation. -/
theorem parseFileExt_dotless_name
    (name : List Char) (hnd : '.' ∉ name) :
    parseFileExt name = name.map Char.toLower ∧
    (name ≠ [] → parseFileExt name ≠ []) ∧
    ALLOWED_EXTENSIONS.contains (parseFileExt ("pdf".toList)) = true ∧
    validateFile (some ("pdf".toList)) (some 1024) = .ok () := by
  have h1 : parseFileExt name = name.map Char.toLower := by
    rw [parseFileExt, splitOnChar_not_mem hnd]
    rfl
  refine ⟨h1, fun hne => ?_, by decide, rfl⟩
  rw [h1]
  simpa using hne

/-- Witness for C10 at the concrete dot-less filename "README". -/
theorem parseFileExt_dotless_name_witness :
    parseFileExt ("README".toList) = "readme".toList ∧
    validateFile (some ("pdf".toList)) (some 1024) = .ok () := by
  have h := parseFileExt_dotless_name ("README".toList) (by decide)
  exact ⟨h.1.trans (by decide), h.2.2.2⟩

/-- C7: with a declared filename and byte length, `validateFile` succeeds
iff the lower-cased extension is in the allow-set and the size does not
exceed 10 MiB; otherwise it fails carrying the offending extension
resp. the measured size; and `extractText` reads file content only after
validation has succeeded. -/
theorem validateFile_allowset_and_size
    (name : List Char) (sz : Nat) (hname : name ≠ []) :
    (validateFile (some name) (some sz) = .ok () ↔
      (ALLOWED_EXTENSIONS.contains (parseFileExt name) = true ∧
        sz ≤ MAX_FILE_SIZE)) ∧
    (ALLOWED_EXTENSIONS.contains (parseFileExt name) = false →
      validateFile (some name) (some sz) =
        .error (.badExt (parseFileExt name))) ∧
    (ALLOWED_EXTENSIONS.contains (parseFileExt name) = true →
      MAX_FILE_SIZE < sz →
      validateFile (some name) (some sz) = .error (.tooLarge sz)) ∧
    (∀ (meta : FileMeta) (env : ExtractEnv),
      Ev.readFile ∈ (extractText meta env).1 →
      validateFile meta.originalFilename meta.size = .ok ()) := by
  have hne : name.isEmpty = false := by simpa using hname
  have hmaxpos : 0 < MAX_FILE_SIZE := by decide
  refine ⟨?_, ?_, ?_, ?_⟩
  · simp only [validateFile, hne, Bool.false_eq_true, if_false]
    cases hc : ALLOWED_EXTENSIONS.contains (parseFileExt name) with
    | false => simp
    | true =>
      simp only [Bool.true_eq_false, if_false]
      by_cases hsz : MAX_FILE_SIZE < sz
      · have hsz0 : sz ≠ 0 := by omega
        simp [hsz, hsz0, Nat.not_le.mpr hsz]
      · simp [hsz, Nat.not_lt.mp hsz]
  · intro hc
    have hc' : parseFileExt name ∉ ALLOWED_EXTENSIONS := by simpa using hc
    simp [validateFile, hne, hc']
  · intro hc hsz
    have hsz0 : sz ≠ 0 := by omega
    have hc' : parseFileExt name ∈ ALLOWED_EXTENSIONS := by simpa using hc
    simp [validateFile, hne, hc', hsz, hsz0]
  · intro meta env h
    cases hv : validateFile meta.originalFilename meta.size with
    | error e =>
      exfalso
      simp only [extractText, hv] at h
      simp at h
    | ok u => rfl

/-- Witness for C7: "notes.txt" of 100 bytes validates, "virus.exe" of the
same size is rejected with its extension. -/
theorem validateFile_allowset_and_size_witness :
    validateFile (some ("notes.txt".toList)) (some 100) = .ok () ∧
    validateFile (some ("virus.exe".toList)) (some 100) =
      .error (.badExt ("exe".toList)) := by
  have h1 := validateFile_allowset_and_size ("notes.txt".toList) 100 (by decide)
  have h2 := validateFile_allowset_and_size ("virus.exe".toList) 100 (by decide)
  exact ⟨h1.1.mpr ⟨by decide, by decide⟩, h2.2.1 (by decide)⟩

theorem extractText_always_terminates (meta : FileMeta) (env : ExtractEnv) :
    Ev.acquireWorker ∈ (extractText meta env).1 →
    Ev.terminateWorker ∈ (extractText meta env).1 := by
  unfold extractText
  cases validateFile meta.originalFilename meta.size with
  | error e => intro h; simp at h
  | ok u =>
    dsimp only
    split_ifs with h1 h2 h3 h4 h5
    · cases env.pdf with
      | ok t => dsimp only; split <;> (intro h; simp at h)
      | throws m => intro h; simp at h
    · cases env.docx with
      | ok t => dsimp only; split <;> (intro h; simp at h)
      | throws m => intro h; simp at h
    · intro h; simp at h
    · intro h; simp at h
    · cases env.ocr with
      | ok t => dsimp only; split <;> (intro _; simp)
      | throws m => intro _; simp
    · intro h; simp at h

/-- C9 as stated fails on the repository: the enhanced `extractText`
(lines 191-241) does terminate the OCR worker on every exit path, but the
V1 `extractText` image path (lines 44-49) has no try/finally, so when
recognition throws the acquired worker is never terminated. -/
theorem ocr_worker_released_on_every_exit :
    (∀ (meta : FileMeta) (env : ExtractEnv),
      Ev.acquireWorker ∈ (extractText meta env).1 →
      Ev.terminateWorker ∈ (extractText meta env).1) ∧
    Ev.acquireWorker ∈ (extractTextV1 jpgMeta ocrThrowsEnv).1 ∧
    Ev.terminateWorker ∉ (extractTextV1 jpgMeta ocrThrowsEnv).1 :=
  ⟨extractText_always_terminates, by decide, by decide⟩

/-- Witness for C9: on a successful OCR run over a jpg upload the enhanced
extractor's trace contains the terminate event. -/
theorem ocr_worker_released_witness :
    Ev.terminateWorker ∈ (extractText jpgMeta ocrOkEnv).1 :=
  ocr_worker_released_on_every_exit.1 jpgMeta ocrOkEnv (by decide)
